import Mathlib

/-!
Verification of the control-components repository against its natural-language
specification.  The Rust sources are shallowly embedded: byte sequences become
`List Nat`, machine integers become `Int` (with explicit bounds where overflow
matters), `f64` weights become `ℚ`, and fallible code returns `Option`.
-/

namespace ControlComponents

/-! ### util/utils.rs -/

/-- Embeds the digit filter closure of `ascii_to_int` in util/utils.rs:
`(48..=57).contains(&x)`. -/
def isDigitByte (x : Nat) : Bool := 48 ≤ x && x ≤ 57

/-- Embeds the fold of `ascii_to_int` in util/utils.rs:
`acc *= 10; acc += (x - 48)`, starting from `0`. -/
def foldDigits (l : List Nat) : Int :=
  l.foldl (fun (acc : Int) (x : Nat) => acc * 10 + ((x : Int) - 48)) 0

/-- Embeds `ascii_to_int` in util/utils.rs.  The Rust function indexes
`bytes[0]`, which panics on an empty slice; the panic is modelled as `none`.
The sign is `-1` exactly when the first byte is `-` (45), and the magnitude
folds every digit byte anywhere in the slice. -/
def ascii_to_int (bytes : List Nat) : Option Int :=
  if bytes = [] then none
  else
    some ((if bytes.headD 0 = 45 then (-1 : Int) else 1) *
      foldDigits (bytes.filter isDigitByte))

/-- ASCII decimal digit bytes of a natural number, most significant first,
no leading zeros (`[48]` for zero): the unsigned half of Rust `ToString`. -/
def natDigits (n : Nat) : List Nat :=
  if _h : n < 10 then [n + 48]
  else natDigits (n / 10) ++ [n % 10 + 48]
termination_by n
decreasing_by exact Nat.div_lt_self (by omega) (by omega)

/-- Embeds `num_to_bytes` in util/utils.rs applied to an `isize`: the ASCII
bytes of `number.to_string()`, with a leading `-` (45) when negative. -/
def num_to_bytes (n : Int) : List Nat :=
  if n < 0 then 45 :: natDigits n.natAbs else natDigits n.natAbs

/-- Modelled from the spec: `parse_signed` as the spec's words read — an
optional leading `-`, then the maximal prefix of ASCII digits, with
everything from the first non-digit on ignored.  This is the refinement
reference for `ascii_to_int`, which instead folds every digit byte. -/
def parse_signed_specRead (bytes : List Nat) : Int :=
  match bytes with
  | 45 :: rest => -(foldDigits (rest.takeWhile isDigitByte))
  | _ => foldDigits (bytes.takeWhile isDigitByte)

/-! #### Basic lemmas about the codec -/

theorem foldDigits_append_digit (l : List Nat) (d : Nat) :
    foldDigits (l ++ [d]) = foldDigits l * 10 + ((d : Int) - 48) := by
  simp [foldDigits, List.foldl_append]

theorem natDigits_ne_nil (n : Nat) : natDigits n ≠ [] := by
  rw [natDigits]
  split <;> simp

theorem mem_natDigits_digit (n x : Nat) (hx : x ∈ natDigits n) :
    48 ≤ x ∧ x ≤ 57 := by
  induction n using Nat.strong_induction_on with
  | _ n ih =>
    rw [natDigits] at hx
    split at hx
    · rename_i h
      rw [List.mem_singleton] at hx
      omega
    · rcases List.mem_append.mp hx with h | h
      · exact ih (n / 10) (Nat.div_lt_self (by omega) (by omega)) h
      · rw [List.mem_singleton] at h
        omega

theorem filter_natDigits (n : Nat) :
    (natDigits n).filter isDigitByte = natDigits n := by
  apply List.filter_eq_self.mpr
  intro x hx
  have := mem_natDigits_digit n x hx
  simp only [isDigitByte, Bool.and_eq_true, decide_eq_true_eq]
  omega

theorem foldDigits_natDigits (n : Nat) : foldDigits (natDigits n) = n := by
  induction n using Nat.strong_induction_on with
  | _ n ih =>
    rw [natDigits]
    split
    · simp [foldDigits]
    · rw [foldDigits_append_digit, ih (n / 10) (Nat.div_lt_self (by omega) (by omega))]
      omega

theorem headD_natDigits_ge (n : Nat) : 48 ≤ (natDigits n).headD 0 := by
  cases h : natDigits n with
  | nil => exact absurd h (natDigits_ne_nil n)
  | cons a t =>
    have : a ∈ natDigits n := by rw [h]; exact List.mem_cons_self a t
    simpa using (mem_natDigits_digit n a this).1

theorem ascii_to_int_of_ne_nil (l : List Nat) (h : l ≠ []) :
    ascii_to_int l =
      some ((if l.headD 0 = 45 then (-1 : Int) else 1) *
        foldDigits (l.filter isDigitByte)) := by
  rw [ascii_to_int, if_neg h]

theorem foldDigits_from_acc_nonneg (l : List Nat) :
    (∀ x ∈ l, 48 ≤ x) → ∀ acc : Int, 0 ≤ acc →
      0 ≤ l.foldl (fun (acc : Int) (x : Nat) => acc * 10 + ((x : Int) - 48)) acc := by
  induction l with
  | nil => intro _ acc hacc; simpa using hacc
  | cons a t ih =>
    intro h acc hacc
    rw [List.foldl_cons]
    refine ih (fun x hx => h x (List.mem_cons_of_mem a hx)) _ ?_
    have h48 : (48 : Int) ≤ (a : Int) := by
      exact_mod_cast h a (List.mem_cons_self a t)
    nlinarith

theorem foldDigits_nonneg (l : List Nat) (h : ∀ x ∈ l, 48 ≤ x) :
    0 ≤ foldDigits l :=
  foldDigits_from_acc_nonneg l h 0 le_rfl

/-! ### Claims C3, C4, C6: the ASCII codec -/

/-- C3 counterexample: `ascii_to_int` does not implement the maximal-prefix
reading.  On the bytes of the string consisting of the digit 1, the letter x,
and the digit 2, the code folds both digits and yields 12, while the
maximal-prefix reading of the claim yields 1. -/
theorem ascii_to_int_not_prefix_semantics :
    ascii_to_int [49, 120, 50] = some 12 ∧
    parse_signed_specRead [49, 120, 50] = 1 ∧ (12 : Int) ≠ 1 := by
  refine ⟨?_, ?_, by decide⟩ <;> rfl

/-- C3 (amended): for every non-empty byte sequence, `ascii_to_int` returns
the sign given by a leading `-` times the decimal value of the concatenation
of ALL ASCII digit bytes of the sequence in order; appending a digit-free
suffix (such as CR) does not change the result, and when the head is not `-`
the result is non-negative. -/
theorem ascii_to_int_all_digits (b : Nat) (bs suffix : List Nat)
    (hsuf : ∀ x ∈ suffix, isDigitByte x = false) :
    ascii_to_int ((b :: bs) ++ suffix) = ascii_to_int (b :: bs) ∧
    ascii_to_int (b :: bs) =
      some ((if b = 45 then (-1 : Int) else 1) *
        foldDigits ((b :: bs).filter isDigitByte)) ∧
    (b ≠ 45 → ∀ v, ascii_to_int (b :: bs) = some v → 0 ≤ v) := by
  have hsufnil : suffix.filter isDigitByte = [] := by
    apply List.filter_eq_nil_iff.mpr
    intro x hx
    simp [hsuf x hx]
  refine ⟨?_, ?_, ?_⟩
  · rw [ascii_to_int_of_ne_nil _ (by simp), ascii_to_int_of_ne_nil _ (by simp),
      List.filter_append, hsufnil, List.append_nil]
    rfl
  · exact ascii_to_int_of_ne_nil _ (by simp)
  · intro hb v hv
    rw [ascii_to_int_of_ne_nil _ (by simp), List.headD_cons, if_neg hb,
      one_mul] at hv
    obtain rfl : foldDigits ((b :: bs).filter isDigitByte) = v :=
      Option.some.inj hv
    apply foldDigits_nonneg
    intro x hx
    have := List.of_mem_filter hx
    simp only [isDigitByte, Bool.and_eq_true, decide_eq_true_eq] at this
    omega

/-- C3 witness: instantiation on the bytes of the string minus 3 4 0 0
followed by CR; the CR is ignored and the value is the negation of 3400. -/
theorem ascii_to_int_all_digits_witness :
    (∀ x ∈ [13], isDigitByte x = false) ∧
    (ascii_to_int ([45, 51, 52, 48, 48] ++ [13]) =
        ascii_to_int [45, 51, 52, 48, 48] ∧
      ascii_to_int [45, 51, 52, 48, 48] =
        some ((if 45 = 45 then (-1 : Int) else 1) *
          foldDigits ([45, 51, 52, 48, 48].filter isDigitByte)) ∧
      (45 ≠ 45 → ∀ v, ascii_to_int [45, 51, 52, 48, 48] = some v → 0 ≤ v)) :=
  ⟨by decide, ascii_to_int_all_digits 45 [51, 52, 48, 48] [13] (by decide)⟩

/-- C4 counterexample: `ascii_to_int` is not total — on the empty byte
sequence the Rust code indexes `bytes[0]` and panics, modelled as `none`. -/
theorem ascii_to_int_empty_fails : ascii_to_int [] = none := rfl

/-- C4 (amended): on every NON-empty byte sequence `ascii_to_int` returns a
value, and it returns 0 when the sequence contains no digit bytes; on the
empty sequence it panics instead of returning. -/
theorem ascii_to_int_total_on_nonempty (b : Nat) (bs : List Nat) :
    (ascii_to_int (b :: bs)).isSome = true ∧
    ((b :: bs).filter isDigitByte = [] → ascii_to_int (b :: bs) = some 0) := by
  constructor
  · simp [ascii_to_int]
  · intro h
    simp [ascii_to_int, h, foldDigits]

/-- C4 witness: a lone CR byte parses to 0. -/
theorem ascii_to_int_total_on_nonempty_witness :
    (ascii_to_int [13]).isSome = true ∧
    ([13].filter isDigitByte = [] → ascii_to_int [13] = some 0) :=
  ascii_to_int_total_on_nonempty 13 []

/-- C6: round trip — `ascii_to_int` recovers every integer encoded by
`num_to_bytes`, negative and non-negative alike. -/
theorem ascii_to_int_num_to_bytes (n : Int) :
    ascii_to_int (num_to_bytes n) = some n := by
  by_cases hn : n < 0
  · rw [num_to_bytes, if_pos hn, ascii_to_int_of_ne_nil _ (by simp),
      List.headD_cons, if_pos rfl, List.filter_cons]
    have h45 : isDigitByte 45 = false := by decide
    rw [h45]
    simp only [Bool.false_eq_true, if_false]
    rw [filter_natDigits, foldDigits_natDigits]
    congr 1
    omega
  · rw [num_to_bytes, if_neg hn,
      ascii_to_int_of_ne_nil _ (natDigits_ne_nil _)]
    have hhead : ¬(natDigits n.natAbs).headD 0 = 45 := by
      have := headD_natDigits_ge n.natAbs
      omega
    rw [if_neg hhead, filter_natDigits, foldDigits_natDigits, one_mul]
    congr 1
    omega

/-! ### controllers/clear_core.rs and components/clear_core_motor.rs -/

/-- Embeds `check_reply` in controllers/clear_core.rs: fails exactly when the
reply byte at index 3 is the failure status byte `?` (63).  Indexing a reply
shorter than 4 bytes panics, modelled as `none`; `some true` is `Ok`. -/
def check_reply (reply : List Nat) : Option Bool :=
  (reply[3]?).map (fun r => if r = 63 then false else true)

/-- Embeds `ClearCoreMotor::get_position` in components/clear_core_motor.rs:
after `check_reply`, the returned position is `ascii_to_int` over the ENTIRE
reply buffer, divided by the motor scale.  Both the propagated rejection
error and the panics of the helpers are modelled as `none`. -/
def get_position (reply : List Nat) (scale : Nat) : Option ℚ :=
  match check_reply reply with
  | some true =>
    match ascii_to_int reply with
    | some v => some ((v : ℚ) / (scale : ℚ))
    | _ => none
  | _ => none

/-- C5: `get_position` parses the whole fixed reply buffer with
`ascii_to_int`.  For every reply `[STX, M, id_ascii, status] ++ payload` with
a non-digit, non-failure status byte, the sign test looks at index 0 (STX),
so the result folds the echoed id digit in as the leading digit of the
magnitude and is non-negative even when the payload carries a `-` sign at
reply index 4. -/
theorem get_position_folds_id_nonneg (id s scale : Nat) (payload : List Nat)
    (hid : id < 10) (hs : isDigitByte s = false) (hq : s ≠ 63) :
    get_position ([2, 77, id + 48, s] ++ payload) scale =
      some ((foldDigits ((id + 48) :: payload.filter isDigitByte) : ℚ) /
        (scale : ℚ)) ∧
    ∀ q, get_position ([2, 77, id + 48, s] ++ payload) scale = some q →
      0 ≤ q := by
  have hchk : check_reply ([2, 77, id + 48, s] ++ payload) = some true := by
    have h3 : ([2, 77, id + 48, s] ++ payload)[3]? = some s := by
      rw [List.getElem?_append]
      norm_num
    rw [check_reply, h3]
    simp [hq]
  have hdig : isDigitByte (id + 48) = true := by
    simp only [isDigitByte, Bool.and_eq_true, decide_eq_true_eq]
    omega
  have hfil : ([2, 77, id + 48, s] ++ payload).filter isDigitByte =
      (id + 48) :: payload.filter isDigitByte := by
    rw [List.filter_append]
    have h2b : isDigitByte 2 = false := rfl
    have h77 : isDigitByte 77 = false := rfl
    have : [2, 77, id + 48, s].filter isDigitByte = [id + 48] := by
      simp only [List.filter_cons, List.filter_nil, h2b, h77, hdig, hs]
      simp
    rw [this]
    rfl
  have hval : ascii_to_int ([2, 77, id + 48, s] ++ payload) =
      some (foldDigits ((id + 48) :: payload.filter isDigitByte)) := by
    rw [ascii_to_int_of_ne_nil _ (by simp), hfil]
    norm_num
  have heq : get_position ([2, 77, id + 48, s] ++ payload) scale =
      some ((foldDigits ((id + 48) :: payload.filter isDigitByte) : ℚ) /
        (scale : ℚ)) := by
    rw [get_position, hchk, hval]
  refine ⟨heq, ?_⟩
  intro q hqeq
  rw [heq] at hqeq
  obtain rfl := Option.some.inj hqeq
  apply div_nonneg
  · have : 0 ≤ foldDigits ((id + 48) :: payload.filter isDigitByte) := by
      apply foldDigits_nonneg
      intro x hx
      rcases List.mem_cons.mp hx with rfl | hx
      · omega
      · have := List.of_mem_filter hx
        simp only [isDigitByte, Bool.and_eq_true, decide_eq_true_eq] at this
        omega
    exact_mod_cast this
  · exact Nat.cast_nonneg scale

/-- C5 witness: the GP reply echoing id 0, status underscore, with payload
minus 3 4 0 0 CR: the minus at reply index 4 is ignored and the echoed id
digit 48 leads the parsed magnitude, giving 3400 / 800 ≥ 0. -/
theorem get_position_folds_id_nonneg_witness :
    ((0 : Nat) < 10 ∧ isDigitByte 95 = false ∧ (95 : Nat) ≠ 63) ∧
    (get_position ([2, 77, 0 + 48, 95] ++ [45, 51, 52, 48, 48, 13]) 800 =
        some ((foldDigits ((0 + 48) ::
          [45, 51, 52, 48, 48, 13].filter isDigitByte) : ℚ) / (800 : ℚ)) ∧
      ∀ q, get_position ([2, 77, 0 + 48, 95] ++ [45, 51, 52, 48, 48, 13]) 800 =
          some q → 0 ≤ q) :=
  ⟨⟨by decide, by decide, by decide⟩,
    get_position_folds_id_nonneg 0 95 800 [45, 51, 52, 48, 48, 13]
      (by decide) (by decide) (by decide)⟩

/-! ### controllers/ek1100_io.rs -/

/-- Embeds the `Command::SetState` arm of the EtherCAT cyclic loop in
controllers/ek1100_io.rs: `o[0] = old_state & !(1 << shift) |
(u8::from(state) << shift)`.  Bytes are `Nat` below 256; the `u8` complement
`!x` is embedded as `255 ^^^ x`. -/
def set_state_byte (b : Nat) (idx : Nat) (v : Bool) : Nat :=
  b &&& (255 ^^^ (1 <<< idx)) ||| ((if v then 1 else 0) <<< idx)

/-- Embeds the image-level effect of draining one `SetState` command in the
cyclic loop: only the addressed card's output byte changes. -/
def processSetState (image : Nat → Nat) (card : Nat) (idx : Nat) (v : Bool) :
    Nat → Nat :=
  fun c => if c = card then set_state_byte (image card) idx v else image c

theorem testBit_set_state_byte (b idx j : Nat) (v : Bool)
    (hidx : idx < 8) (hj : j < 8) :
    (set_state_byte b idx v).testBit j =
      if j = idx then v else b.testBit j := by
  have h255 : (255 : Nat) = 2 ^ 8 - 1 := by norm_num
  rw [set_state_byte, Nat.testBit_lor, Nat.testBit_land, Nat.testBit_xor,
    h255, Nat.testBit_two_pow_sub_one, Nat.one_shiftLeft,
    Nat.testBit_two_pow]
  cases v with
  | false =>
    rw [if_neg (by decide)]
    rw [Nat.zero_shiftLeft, Nat.zero_testBit, Bool.or_false]
    by_cases hji : j = idx
    · subst hji
      simp [hj]
    · have hij : idx ≠ j := fun h => hji h.symm
      simp [hj, hji, hij]
  | true =>
    rw [if_pos rfl, Nat.one_shiftLeft, Nat.testBit_two_pow]
    by_cases hji : j = idx
    · subst hji
      simp [hj]
    · have hij : idx ≠ j := fun h => hji h.symm
      simp [hj, hji, hij]

/-- C8: processing `SetBit(card, idx, v)` in the EtherCAT cyclic loop
replaces the addressed card's output byte `b` with
`(b &&& (255 ^^^ (1 <<< idx))) ||| ((if v then 1 else 0) <<< idx)` — the
single-bit replace rule — leaving every bit other than `idx` unchanged,
setting bit `idx` to `v`, keeping the result a byte, and leaving every other
card's byte untouched. -/
theorem setState_single_bit_update (image : Nat → Nat) (card idx : Nat)
    (v : Bool) (hidx : idx < 8) :
    processSetState image card idx v card =
      (image card &&& (255 ^^^ (1 <<< idx))) |||
        ((if v then 1 else 0) <<< idx) ∧
    (∀ j, j < 8 → j ≠ idx →
      (processSetState image card idx v card).testBit j =
        (image card).testBit j) ∧
    (processSetState image card idx v card).testBit idx = v ∧
    processSetState image card idx v card < 256 ∧
    ∀ c, c ≠ card → processSetState image card idx v c = image c := by
  have hred : processSetState image card idx v card =
      set_state_byte (image card) idx v := by
    simp [processSetState]
  refine ⟨by rw [hred, set_state_byte], ?_, ?_, ?_, ?_⟩
  · intro j hj hjne
    rw [hred, testBit_set_state_byte _ _ _ _ hidx hj, if_neg hjne]
  · rw [hred, testBit_set_state_byte _ _ _ _ hidx hidx, if_pos rfl]
  · have hmask : (255 ^^^ (1 <<< idx)) < 2 ^ 8 := by
      apply Nat.xor_lt_two_pow (by norm_num)
      rw [Nat.one_shiftLeft]
      exact Nat.pow_lt_pow_right (by norm_num) hidx
    have h1 : image card &&& (255 ^^^ (1 <<< idx)) < 2 ^ 8 :=
      Nat.and_lt_two_pow _ hmask
    have h2 : ((if v then 1 else 0) : Nat) <<< idx < 2 ^ 8 := by
      cases v with
      | false =>
        rw [if_neg (by decide), Nat.zero_shiftLeft]
        positivity
      | true =>
        rw [if_pos rfl, Nat.one_shiftLeft]
        exact Nat.pow_lt_pow_right (by norm_num) hidx
    have hlt : set_state_byte (image card) idx v < 2 ^ 8 := by
      rw [set_state_byte]
      exact Nat.or_lt_two_pow h1 h2
    have h256 : (2 : Nat) ^ 8 = 256 := by norm_num
    rw [h256] at hlt
    rw [hred]
    exact hlt
  · intro c hc
    simp [processSetState, hc]

/-- C8 witness: with the output byte 0b11110000 (240), setting bit 1 to true
yields a byte whose bit 1 is true and whose other bits are those of 240. -/
theorem setState_single_bit_update_witness :
    ((1 : Nat) < 8) ∧
    (processSetState (fun _ => 240) 0 1 true 0 =
      ((fun _ : Nat => 240) 0 &&& (255 ^^^ (1 <<< 1))) |||
        ((if true then 1 else 0) <<< 1) ∧
    (∀ j, j < 8 → j ≠ 1 →
      (processSetState (fun _ => 240) 0 1 true 0).testBit j =
        ((fun _ : Nat => 240) 0).testBit j) ∧
    (processSetState (fun _ => 240) 0 1 true 0).testBit 1 = true ∧
    processSetState (fun _ => 240) 0 1 true 0 < 256 ∧
    ∀ c, c ≠ 0 → processSetState (fun _ => 240) 0 1 true c =
      (fun _ : Nat => 240) c) :=
  ⟨by decide, setState_single_bit_update (fun _ => 240) 0 1 true (by decide)⟩

/-! ### components/clear_core_io.rs -/

/-- `HBridgeState` in components/clear_core_io.rs. -/
inductive HBridgeState
  | Pos
  | Neg
  | Off

/-- The `on_cmd` buffer built in `DigitalOutput::new`:
`[STX, O, id_ascii, 3, 2, 7, 0, 0, CR]`. -/
def digital_output_on_cmd (id : Nat) : List Nat :=
  [2, 79, id + 48, 51, 50, 55, 48, 48, 13]

/-- The `off_cmd` buffer built in `DigitalOutput::new`: a fixed `[u8; 9]`
array holding the 5-byte frame `[STX, O, id_ascii, 0, CR]` padded with four
zero bytes after the CR; `set_state` submits all 9 bytes. -/
def digital_output_off_cmd (id : Nat) : List Nat :=
  [2, 79, id + 48, 48, 13, 0, 0, 0, 0]

/-- `DigitalOutput::command_builder`. -/
def digital_output_command_builder (id : Nat) (state : Bool) : List Nat :=
  if state then digital_output_on_cmd id else digital_output_off_cmd id

/-- The fixed query buffer of `DigitalInput::new` and `AnalogInput::new`:
`[STX, I, id_ascii, CR]`. -/
def input_cmd (id : Nat) : List Nat := [2, 73, id + 48, 13]

/-- `HBridge::command_builder`: prefix `[STX, O, id_ascii]`, then the signed
decimal payload for the commanded state, then CR. -/
def hbridge_command_builder (id : Nat) (power : Int) (s : HBridgeState) :
    List Nat :=
  let payload := match s with
    | .Pos => num_to_bytes power
    | .Neg => num_to_bytes (-power)
    | .Off => num_to_bytes 0
  [2, 79, id + 48] ++ payload ++ [13]

/-- The fixed-shape motor command buffers of components/clear_core_motor.rs:
`[STX, M, id_ascii, op1, op2, CR]`, built inline for EN (`enable`),
DE (`disable`), AS (`abrupt_stop`), ST (`stop`), GS (`get_status`),
GP (`get_position`) and CA (`clear_alerts`). -/
def motor_fixed_cmd (id op1 op2 : Nat) : List Nat :=
  [2, 77, id + 48, op1, op2, 13]

/-- The argument-carrying motor command buffers of
components/clear_core_motor.rs: prefix `[STX, M, id_ascii]`, a two-letter
opcode, the `num_to_bytes` payload, then a pushed CR — the shared Vec
pattern of AM (`absolute_move`), RM (`relative_move`), JG (`jog`),
SP (`set_position`), SV (`set_velocity`), SA (`set_acceleration`) and
SD (`set_deceleration`).  `arg` is the on-wire integer the caller computed:
`trunc(value * scale)` for the f64 operations, `position * scale` for SP,
with SV clamping negatives to zero first. -/
def motor_arg_cmd (id op1 op2 : Nat) (arg : Int) : List Nat :=
  [2, 77, id + 48, op1, op2] ++ num_to_bytes arg ++ [13]

/-! ### Claim C9: frame invariants -/

/-- C9 counterexample: the OFF buffer that `DigitalOutput` submits is the
full 9-byte array, whose last byte is 0, not CR — there ARE bytes after the
CR, so the buffer is not exactly `[STX, O, id_ascii, 0, CR]`. -/
theorem digital_output_off_cmd_padded :
    digital_output_off_cmd 0 = [2, 79, 48, 48, 13, 0, 0, 0, 0] ∧
    (digital_output_off_cmd 0).getLast? = some 0 ∧
    digital_output_off_cmd 0 ≠ [2, 79, 48, 48, 13] := by
  refine ⟨rfl, rfl, by decide⟩

/-- C9 (amended): every command buffer built by the clear-core device
handles begins with STX; the input, motor and H-bridge buffers end with
CR, and DigitalOutput's ON buffer is exactly
`[STX, O, id_ascii, 3, 2, 7, 0, 0, CR]`, but its OFF buffer is the 5-byte
frame `[STX, O, id_ascii, 0, CR]` padded with four trailing zero bytes,
hence does not end with CR. -/
theorem frame_stx_cr_invariant (id : Nat) (state : Bool) (power : Int)
    (s : HBridgeState) (op1 op2 : Nat) (arg : Int) :
    (digital_output_command_builder id state).head? = some 2 ∧
    digital_output_on_cmd id = [2, 79, id + 48, 51, 50, 55, 48, 48, 13] ∧
    (digital_output_on_cmd id).getLast? = some 13 ∧
    digital_output_off_cmd id = [2, 79, id + 48, 48, 13] ++ [0, 0, 0, 0] ∧
    (input_cmd id).head? = some 2 ∧
    (input_cmd id).getLast? = some 13 ∧
    (motor_fixed_cmd id op1 op2).head? = some 2 ∧
    (motor_fixed_cmd id op1 op2).getLast? = some 13 ∧
    (motor_arg_cmd id op1 op2 arg).head? = some 2 ∧
    (motor_arg_cmd id op1 op2 arg).getLast? = some 13 ∧
    (hbridge_command_builder id power s).head? = some 2 ∧
    (hbridge_command_builder id power s).getLast? = some 13 := by
  refine ⟨?_, rfl, rfl, rfl, rfl, rfl, rfl, rfl, rfl, ?_, rfl, ?_⟩
  · cases state <;> rfl
  · show ((([2, 77, id + 48, op1, op2] : List Nat) ++
      (num_to_bytes arg ++ [13])).getLast? = some 13)
    rw [← List.append_assoc, List.getLast?_concat]
  · show ((([2, 79, id + 48] : List Nat) ++ (_ ++ [13])).getLast? = some 13)
    rw [← List.append_assoc, List.getLast?_concat]

/-! ### Claim C7: ClearCoreMotor::enable -/

/-- `Status` in components/clear_core_motor.rs. -/
inductive MotorStatus
  | Disabled
  | Enabling
  | Faulted
  | Ready
  | Moving
deriving DecidableEq

/-- The status decoding of `get_status`: byte 3 of a GS reply, ASCII digits
48..52; any other byte is the unknown-status error. -/
def decodeStatus (b : Nat) : Option MotorStatus :=
  if b = 48 then some .Disabled
  else if b = 49 then some .Enabling
  else if b = 50 then some .Faulted
  else if b = 51 then some .Ready
  else if b = 52 then some .Moving
  else none

inductive EnableOutcome
  | ok
  | motorFaulted
  | unknownStatus
deriving DecidableEq

/-- The confirmation poll after the Enabling loop of
`ClearCoreMotor::enable` exits: `if self.get_status().await? == Faulted`.
It consumes one further GS reply; the count 2 includes the loop-exit poll. -/
def enableConfirm : List Nat → Option (EnableOutcome × Nat)
  | [] => none
  | b2 :: _ =>
    match decodeStatus b2 with
    | none => some (.unknownStatus, 2)
    | some .Faulted => some (.motorFaulted, 2)
    | some _ => some (.ok, 2)

/-- Embeds the polling phase of `ClearCoreMotor::enable` (after the EN frame
is acknowledged) over the script of successive GS reply status bytes:
`while get_status() == Enabling` ticks and polls again; on loop exit the code
calls `get_status()` ONCE MORE and fails with the motor-faulted error exactly
when that extra poll decodes to Faulted.  Returns the outcome together with
the number of status polls consumed; `none` when the script is exhausted
before the call completes. -/
def enablePolls : List Nat → Option (EnableOutcome × Nat)
  | [] => none
  | b :: rest =>
    match decodeStatus b with
    | none => some (.unknownStatus, 1)
    | some s =>
      if s = .Enabling then
        match enablePolls rest with
        | none => none
        | some (o, n) => some (o, n + 1)
      else enableConfirm rest

/-- C7 counterexample: with GS replies 1, 1, 3 the call does NOT return
after three status polls — it demands a fourth reply (the script is
exhausted); and the failure status is decided by that extra poll, not by the
loop's terminal status: with replies 3 then 2 the loop exits on Ready yet
the call fails with the motor-faulted error. -/
theorem enable_extra_poll_counterexample :
    enablePolls [49, 49, 51] = none ∧
    enablePolls [51, 50] = some (.motorFaulted, 2) := by
  refine ⟨rfl, rfl⟩

/-- C7 (amended): `enable` polls `get_status` until the status is not
Enabling, then issues one further confirmation poll and fails exactly when
THAT poll decodes to Faulted; after k Enabling replies, a non-Enabling reply
and one confirmation reply, it completes with k + 2 status polls — so the
scripted replies 1, 1, 3 need a fourth reply and yield success after four
polls when that reply is not Faulted. -/
theorem enable_polls_extra_confirmation (k : Nat) (b b2 : Nat)
    (s s2 : MotorStatus) (hb : decodeStatus b = some s)
    (hsne : s ≠ .Enabling) (hb2 : decodeStatus b2 = some s2) :
    enablePolls (List.replicate k 49 ++ [b, b2]) =
      some ((if s2 = .Faulted then .motorFaulted else .ok), k + 2) := by
  induction k with
  | zero =>
    rw [List.replicate_zero, List.nil_append]
    rw [enablePolls.eq_def]
    simp only [hb]
    rw [if_neg hsne, enableConfirm.eq_def]
    simp only [hb2]
    cases s2 <;> rfl
  | succ m ih =>
    rw [List.replicate_succ, List.cons_append]
    rw [enablePolls.eq_def]
    have h49 : decodeStatus 49 = some MotorStatus.Enabling := rfl
    simp only [h49]
    rw [if_pos trivial, ih]

/-- C7 witness: two Enabling replies, then Ready, then a non-Faulted
confirmation reply: success after exactly four status polls. -/
theorem enable_polls_extra_confirmation_witness :
    (decodeStatus 51 = some MotorStatus.Ready ∧
      MotorStatus.Ready ≠ MotorStatus.Enabling) ∧
    enablePolls (List.replicate 2 49 ++ [51, 51]) =
      some ((if MotorStatus.Ready = MotorStatus.Faulted then
        EnableOutcome.motorFaulted else EnableOutcome.ok), 2 + 2) :=
  ⟨⟨rfl, by decide⟩,
    enable_polls_extra_confirmation 2 51 51 .Ready .Ready rfl (by decide) rfl⟩

/-! ### util/utils.rs median and components/scale.rs -/

/-- Embeds `median` (util/utils.rs, duplicated as `Scale::median` in
components/scale.rs): sort ascending, index `len / 2` (the upper middle for
even lengths).  `f64` samples are modelled as ℚ; on NaN-free data the
`partial_cmp` unwrap never fires.  Indexing an empty buffer panics,
modelled as `none`. -/
def median (weights : List ℚ) : Option ℚ :=
  (weights.mergeSort (fun a b => decide (a ≤ b)))[weights.length / 2]?

/-- Embeds `Scale::weight_by_median` under a discrete time model: the
sampling loop breaks as soon as the elapsed-time check fails, so the buffer
holds the first `windowTicks` weights of the sample stream, where
`windowTicks` is the number of iterations whose time check passes.  A window
that elapses before the first sample (e.g. a zero duration) gives
`windowTicks = 0`, an empty buffer, and the median's out-of-bounds panic. -/
def weight_by_median (sample : Nat → ℚ) (windowTicks : Nat) : Option ℚ :=
  median ((List.range windowTicks).map sample)

/-- C10: on every non-empty buffer, `median` returns the element at index
`len / 2` of a sorted permutation of the input; on the empty buffer it
fails (out-of-bounds index) instead of returning a value, and
`weight_by_median` hits exactly that failure when the sampling window
elapses before the first sample is taken. -/
theorem median_total_iff_nonempty (l : List ℚ) (sample : Nat → ℚ)
    (hne : l ≠ []) :
    (∃ x, median l = some x ∧
      ∃ srt : List ℚ, srt.Perm l ∧ srt.Sorted (fun a b => a ≤ b) ∧
        srt[l.length / 2]? = some x) ∧
    median ([] : List ℚ) = none ∧
    weight_by_median sample 0 = none := by
  refine ⟨?_, ?_, ?_⟩
  · have hperm : (l.mergeSort (fun a b => decide (a ≤ b))).Perm l :=
      List.mergeSort_perm l _
    have hlen : (l.mergeSort (fun a b => decide (a ≤ b))).length = l.length :=
      hperm.length_eq
    have hpos : 0 < l.length := List.length_pos.mpr hne
    have hlt : l.length / 2 < (l.mergeSort (fun a b => decide (a ≤ b))).length := by
      rw [hlen]
      omega
    refine ⟨(l.mergeSort (fun a b => decide (a ≤ b)))[l.length / 2], ?_,
      l.mergeSort (fun a b => decide (a ≤ b)), hperm,
      List.sorted_mergeSort' l, ?_⟩
    · rw [median, List.getElem?_eq_getElem hlt]
    · rw [List.getElem?_eq_getElem hlt]
  · rw [median, List.mergeSort_nil]
    rfl
  · rw [weight_by_median, List.range_zero, List.map_nil, median,
      List.mergeSort_nil]
    rfl

/-- C10 witness: the buffer 3, 1, 2 has median 2, the element at index 1 of
its ascending sort. -/
theorem median_total_iff_nonempty_witness :
    ([(3 : ℚ), 1, 2] ≠ []) ∧
    ((∃ x, median [(3 : ℚ), 1, 2] = some x ∧
      ∃ srt : List ℚ, srt.Perm [(3 : ℚ), 1, 2] ∧
        srt.Sorted (fun a b => a ≤ b) ∧
        srt[([(3 : ℚ), 1, 2].length) / 2]? = some x) ∧
    median ([] : List ℚ) = none ∧
    weight_by_median (fun _ => 0) 0 = none) :=
  ⟨by simp, median_total_iff_nonempty [(3 : ℚ), 1, 2] (fun _ => 0) (by simp)⟩

/-! ### subsystems/hatch.rs -/

/-- The loop-exit data of a `Hatch` servo move: how many feedback polls the
loop made, and whether it left via the timeout break. -/
structure ServoRun where
  polls : Nat
  timedOut : Bool
deriving DecidableEq

/-- The `while` loop of `Hatch::open` under a discrete time model: iteration
`k` polls `fb k`; the loop RUNS while the feedback is at or above the
setpoint (`while self.actuator.get_feedback().await? >= set_point`) and
exits as soon as the feedback drops below it; inside the body the timeout
check breaks after `budget` passing checks (elapsed > timeout on the
`budget`-th iteration). -/
def openLoopAux (fb : Nat → Int) (sp : Int) : Nat → Nat → ServoRun
  | k, 0 => if sp ≤ fb k then ⟨k + 1, true⟩ else ⟨k + 1, false⟩
  | k, r + 1 =>
    if sp ≤ fb k then openLoopAux fb sp (k + 1) r else ⟨k + 1, false⟩

/-- `Hatch::open(set_point)`: actuate Pos, run the polling loop from tick 0,
actuate Off (see `hatch_actuation_order`). -/
def hatch_open (fb : Nat → Int) (sp : Int) (budget : Nat) : ServoRun :=
  openLoopAux fb sp 0 budget

/-- The `while` loop of `Hatch::close`: runs while feedback is at or below
the setpoint (`<= set_point`), exits as soon as it rises above it, with the
same timeout break. -/
def closeLoopAux (fb : Nat → Int) (sp : Int) : Nat → Nat → ServoRun
  | k, 0 => if fb k ≤ sp then ⟨k + 1, true⟩ else ⟨k + 1, false⟩
  | k, r + 1 =>
    if fb k ≤ sp then closeLoopAux fb sp (k + 1) r else ⟨k + 1, false⟩

/-- `Hatch::close(set_point)`. -/
def hatch_close (fb : Nat → Int) (sp : Int) (budget : Nat) : ServoRun :=
  closeLoopAux fb sp 0 budget

/-- The actuator commands issued around the servo loop of `Hatch::open`:
Pos before the loop, Off unconditionally after it. -/
def hatch_open_acts : List HBridgeState := [.Pos, .Off]

/-- The actuator commands issued around the servo loop of `Hatch::close`:
Neg before the loop, Off unconditionally after it. -/
def hatch_close_acts : List HBridgeState := [.Neg, .Off]

theorem openLoopAux_spec (fb : Nat → Int) (sp : Int) :
    ∀ (budget k : Nat),
      ((openLoopAux fb sp k budget).timedOut = false →
        k < (openLoopAux fb sp k budget).polls ∧
        fb ((openLoopAux fb sp k budget).polls - 1) < sp ∧
        ∀ j, k ≤ j → j < (openLoopAux fb sp k budget).polls - 1 →
          sp ≤ fb j) ∧
      ((openLoopAux fb sp k budget).timedOut = true →
        (openLoopAux fb sp k budget).polls = k + budget + 1 ∧
        ∀ j, k ≤ j → j ≤ k + budget → sp ≤ fb j) := by
  intro budget
  induction budget with
  | zero =>
    intro k
    by_cases h : sp ≤ fb k
    · rw [openLoopAux, if_pos h]
      dsimp only
      refine ⟨fun habs => Bool.noConfusion habs, fun _ => ⟨rfl, ?_⟩⟩
      intro j hkj hjb
      have hj : j = k := by omega
      subst hj
      exact h
    · rw [openLoopAux, if_neg h]
      dsimp only
      refine ⟨fun _ => ⟨by omega, by simpa using not_le.mp h, ?_⟩,
        fun habs => Bool.noConfusion habs⟩
      intro j hkj hjk
      omega
  | succ r ih =>
    intro k
    by_cases h : sp ≤ fb k
    · rw [openLoopAux, if_pos h]
      obtain ⟨ihf, iht⟩ := ih (k + 1)
      constructor
      · intro hfalse
        obtain ⟨h1, h2, h3⟩ := ihf hfalse
        refine ⟨by omega, h2, ?_⟩
        intro j hkj hjp
        rcases Nat.eq_or_lt_of_le hkj with heq | hlt
        · exact heq ▸ h
        · exact h3 j (by omega) hjp
      · intro htrue
        obtain ⟨h1, h2⟩ := iht htrue
        refine ⟨by omega, ?_⟩
        intro j hkj hjb
        rcases Nat.eq_or_lt_of_le hkj with heq | hlt
        · exact heq ▸ h
        · exact h2 j (by omega) (by omega)
    · rw [openLoopAux, if_neg h]
      dsimp only
      refine ⟨fun _ => ⟨by omega, by simpa using not_le.mp h, ?_⟩,
        fun habs => Bool.noConfusion habs⟩
      intro j hkj hjk
      omega

theorem closeLoopAux_spec (fb : Nat → Int) (sp : Int) :
    ∀ (budget k : Nat),
      ((closeLoopAux fb sp k budget).timedOut = false →
        k < (closeLoopAux fb sp k budget).polls ∧
        sp < fb ((closeLoopAux fb sp k budget).polls - 1) ∧
        ∀ j, k ≤ j → j < (closeLoopAux fb sp k budget).polls - 1 →
          fb j ≤ sp) ∧
      ((closeLoopAux fb sp k budget).timedOut = true →
        (closeLoopAux fb sp k budget).polls = k + budget + 1 ∧
        ∀ j, k ≤ j → j ≤ k + budget → fb j ≤ sp) := by
  intro budget
  induction budget with
  | zero =>
    intro k
    by_cases h : fb k ≤ sp
    · rw [closeLoopAux, if_pos h]
      dsimp only
      refine ⟨fun habs => Bool.noConfusion habs, fun _ => ⟨rfl, ?_⟩⟩
      intro j hkj hjb
      have hj : j = k := by omega
      subst hj
      exact h
    · rw [closeLoopAux, if_neg h]
      dsimp only
      refine ⟨fun _ => ⟨by omega, by simpa using not_le.mp h, ?_⟩,
        fun habs => Bool.noConfusion habs⟩
      intro j hkj hjk
      omega
  | succ r ih =>
    intro k
    by_cases h : fb k ≤ sp
    · rw [closeLoopAux, if_pos h]
      obtain ⟨ihf, iht⟩ := ih (k + 1)
      constructor
      · intro hfalse
        obtain ⟨h1, h2, h3⟩ := ihf hfalse
        refine ⟨by omega, h2, ?_⟩
        intro j hkj hjp
        rcases Nat.eq_or_lt_of_le hkj with heq | hlt
        · exact heq ▸ h
        · exact h3 j (by omega) hjp
      · intro htrue
        obtain ⟨h1, h2⟩ := iht htrue
        refine ⟨by omega, ?_⟩
        intro j hkj hjb
        rcases Nat.eq_or_lt_of_le hkj with heq | hlt
        · exact heq ▸ h
        · exact h2 j (by omega) (by omega)
    · rw [closeLoopAux, if_neg h]
      dsimp only
      refine ⟨fun _ => ⟨by omega, by simpa using not_le.mp h, ?_⟩,
        fun habs => Bool.noConfusion habs⟩
      intro j hkj hjk
      omega

/-! ### Claim C2: Hatch::open / Hatch::close exit conditions -/

/-- C2 counterexample: with feedback constantly 5000, `open(10000)` exits
its loop after a single poll with no timeout, although the feedback never
satisfied the claimed open-sense exit condition (feedback ≥ setpoint) and
the 100-tick timeout budget was not exceeded: the code's open loop runs
WHILE feedback ≥ setpoint and exits when the feedback drops below it. -/
theorem hatch_open_exit_counterexample :
    hatch_open (fun _ => 5000) 10000 100 = ⟨1, false⟩ ∧
    (5000 : Int) < 10000 := by
  exact ⟨rfl, by decide⟩

/-- C2 (amended): `Hatch::open` polls feedback every 5 ms and exits the
loop when the feedback drops BELOW the setpoint — the reverse of the
claimed sense — or when the elapsed time exceeds the timeout, then issues
Off; symmetrically `Hatch::close` exits when the feedback rises above the
setpoint or on timeout.  On a timeout exit, every poll (including the
spec's stays-at-20000 scenario) saw feedback at/above (open) resp.
at/below (close) the setpoint. -/
theorem hatch_servo_exit_conditions (fb : Nat → Int) (sp : Int)
    (budget : Nat) :
    ((hatch_open fb sp budget).timedOut = false →
      fb ((hatch_open fb sp budget).polls - 1) < sp ∧
      ∀ j < (hatch_open fb sp budget).polls - 1, sp ≤ fb j) ∧
    ((hatch_open fb sp budget).timedOut = true →
      (hatch_open fb sp budget).polls = budget + 1 ∧
      ∀ j ≤ budget, sp ≤ fb j) ∧
    ((hatch_close fb sp budget).timedOut = false →
      sp < fb ((hatch_close fb sp budget).polls - 1) ∧
      ∀ j < (hatch_close fb sp budget).polls - 1, fb j ≤ sp) ∧
    ((hatch_close fb sp budget).timedOut = true →
      (hatch_close fb sp budget).polls = budget + 1 ∧
      ∀ j ≤ budget, fb j ≤ sp) ∧
    hatch_open_acts.getLast? = some HBridgeState.Off ∧
    hatch_close_acts.getLast? = some HBridgeState.Off := by
  obtain ⟨hof, hot⟩ := openLoopAux_spec fb sp budget 0
  obtain ⟨hcf, hct⟩ := closeLoopAux_spec fb sp budget 0
  simp only [hatch_open, hatch_close]
  refine ⟨?_, ?_, ?_, ?_, rfl, rfl⟩
  · intro hf
    obtain ⟨_, h2, h3⟩ := hof hf
    exact ⟨h2, fun j hj => h3 j (Nat.zero_le j) hj⟩
  · intro ht
    obtain ⟨h1, h2⟩ := hot ht
    exact ⟨by omega, fun j hj => h2 j (Nat.zero_le j) (by omega)⟩
  · intro hf
    obtain ⟨_, h2, h3⟩ := hcf hf
    exact ⟨h2, fun j hj => h3 j (Nat.zero_le j) hj⟩
  · intro ht
    obtain ⟨h1, h2⟩ := hct ht
    exact ⟨by omega, fun j hj => h2 j (Nat.zero_le j) (by omega)⟩

/-- C2 witness: the spec's timeout scenario — feedback pinned at 20000,
`open(10000)`, a 2-tick budget: the loop times out and Off is issued. -/
theorem hatch_servo_exit_conditions_witness :
    ((hatch_open (fun _ => 20000) 10000 2).timedOut = false →
      (fun _ : Nat => (20000 : Int))
          ((hatch_open (fun _ => 20000) 10000 2).polls - 1) < 10000 ∧
      ∀ j < (hatch_open (fun _ => 20000) 10000 2).polls - 1,
        (10000 : Int) ≤ (fun _ : Nat => (20000 : Int)) j) ∧
    ((hatch_open (fun _ => 20000) 10000 2).timedOut = true →
      (hatch_open (fun _ => 20000) 10000 2).polls = 2 + 1 ∧
      ∀ j ≤ 2, (10000 : Int) ≤ (fun _ : Nat => (20000 : Int)) j) ∧
    ((hatch_close (fun _ => 20000) 10000 2).timedOut = false →
      (10000 : Int) <
        (fun _ : Nat => (20000 : Int))
          ((hatch_close (fun _ => 20000) 10000 2).polls - 1) ∧
      ∀ j < (hatch_close (fun _ => 20000) 10000 2).polls - 1,
        (fun _ : Nat => (20000 : Int)) j ≤ 10000) ∧
    ((hatch_close (fun _ => 20000) 10000 2).timedOut = true →
      (hatch_close (fun _ => 20000) 10000 2).polls = 2 + 1 ∧
      ∀ j ≤ 2, (fun _ : Nat => (20000 : Int)) j ≤ 10000) ∧
    hatch_open_acts.getLast? = some HBridgeState.Off ∧
    hatch_close_acts.getLast? = some HBridgeState.Off :=
  hatch_servo_exit_conditions (fun _ => 20000) 10000 2

/-! ### subsystems/dispenser.rs -/

/-- The motor commands a dispense-loop iteration can issue. -/
inductive MotorAct
  | setVelocity (v : ℚ)
  | relativeMove (x : ℚ)
  | abruptStop
  | waitForMove
deriving DecidableEq

/-- `DispenseEndCondition` in subsystems/dispenser.rs. -/
inductive DispenseEndCondition
  | Timeout (g : ℚ)
  | WeightAchieved (g : ℚ)
  | Failed
deriving DecidableEq

/-- The fields of `Parameters` in subsystems/dispenser.rs that the control
loop branch reads (the filter constants derived from `sample_rate` and
`cutoff_frequency` are passed separately). -/
structure DispenseParameters where
  motor_speed : ℚ
  check_offset : ℚ
  stop_offset : ℚ
  retract_after : Option ℚ

/-- Embeds `Dispenser::get_median_weight`: the Rust loop `for _ in
0..=samples` reads `samples + 1` weights (`getW n` is the nth weight read),
sorts ascending, and indexes `len / 2` — always in range, the buffer being
non-empty. -/
def get_median_weight (getW : Nat → ℚ) (samples : Nat) : ℚ :=
  let buffer := (List.range (samples + 1)).map getW
  (buffer.mergeSort (fun a b => decide (a ≤ b))).getD (buffer.length / 2) 0

/-- Embeds `Dispenser::update_motor_speed` when the 200 ms sub-cadence has
elapsed: `set_velocity(min(err * motor_speed, motor_speed))` when
`err * motor_speed >= 0.1`, then an unconditional `relative_move(20)`. -/
def update_motor_speed_acts (p : DispenseParameters) (err : ℚ) :
    List MotorAct :=
  (if (1 : ℚ) / 10 ≤ err * p.motor_speed then
    [.setVelocity (if p.motor_speed < err * p.motor_speed then p.motor_speed
      else err * p.motor_speed)]
  else []) ++ [.relativeMove 20]

/-- What one iteration of the weight-mode control loop produces: either the
loop continues with a new filtered weight, or it ends with an end
condition; `acts` lists the motor commands issued during the iteration. -/
inductive StepResult
  | continueLoop (filtered : ℚ) (acts : List MotorAct)
  | finished (cond : DispenseEndCondition) (acts : List MotorAct)
deriving DecidableEq

/-- The motor commands an iteration issued. -/
def StepResult.acts : StepResult → List MotorAct
  | .continueLoop _ a => a
  | .finished _ a => a

/-- Embeds one iteration of the weight-mode loop of `Dispenser::dispense`
(subsystems/dispenser.rs lines 168-218).  Inputs: the loop-shutdown flag,
whether the deadline check `now - init_time > timeout` fired, the previous
filtered weight `currW`, the fresh scale sample, whether the 200 ms
motor-command sub-cadence elapsed (`motorCmdDue`), and the stream
`checkSample` of weights `get_median_weight` would read if entered.
`filterA`/`filterB` are the low-pass constants, `initW` the 2 s median seed
weight, `setpt` the grams to dispense; `target_weight = initW - setpt`. -/
def dispense_step (p : DispenseParameters) (filterA filterB initW setpt : ℚ)
    (shutdown timedOut : Bool) (currW sample : ℚ) (motorCmdDue : Bool)
    (checkSample : Nat → ℚ) : StepResult :=
  let targetW := initW - setpt
  if shutdown then .finished .Failed [.abruptStop]
  else if timedOut then .finished (.Timeout (initW - currW)) [.abruptStop]
  else
    let filtered := filterA * sample + filterB * currW
    let err := (filtered - targetW) / setpt
    let speedActs := if motorCmdDue then update_motor_speed_acts p err
      else []
    if filtered < targetW + p.check_offset then
      let checkWeight := get_median_weight checkSample 15
      if checkWeight < targetW + p.stop_offset then
        let retractActs := match p.retract_after with
          | some r =>
            [.setVelocity p.motor_speed, .relativeMove (-r), .waitForMove]
          | none => []
        .finished (.WeightAchieved (initW - checkWeight))
          (speedActs ++ [.abruptStop] ++ retractActs)
      else
        .continueLoop filtered (speedActs ++ [.abruptStop, .relativeMove 10])
    else
      .continueLoop filtered speedActs

/-- C1: whenever (with neither shutdown nor deadline fired) the filtered
weight falls below `target + check_offset`, the iteration issues
abrupt_stop and takes the median of 16 (approximately 15) fresh samples:
if that median is below `target + stop_offset`, the iteration performs the
optional `retract_after` move and ends with
`WeightAchieved(init_weight - check_median)`; otherwise it issues
`relative_move(10)` and the control cycle continues. -/
theorem dispense_check_then_confirm (p : DispenseParameters)
    (filterA filterB initW setpt currW sample : ℚ) (motorCmdDue : Bool)
    (checkSample : Nat → ℚ)
    (hcheck : filterA * sample + filterB * currW <
      (initW - setpt) + p.check_offset) :
    MotorAct.abruptStop ∈
      (dispense_step p filterA filterB initW setpt false false currW sample
        motorCmdDue checkSample).acts ∧
    (get_median_weight checkSample 15 < (initW - setpt) + p.stop_offset →
      dispense_step p filterA filterB initW setpt false false currW sample
          motorCmdDue checkSample =
        .finished (.WeightAchieved (initW - get_median_weight checkSample 15))
          ((if motorCmdDue then update_motor_speed_acts p
              ((filterA * sample + filterB * currW - (initW - setpt)) / setpt)
            else []) ++ [.abruptStop] ++
            (match p.retract_after with
             | some r =>
               [.setVelocity p.motor_speed, .relativeMove (-r), .waitForMove]
             | none => [])) ∧
      ∀ r, p.retract_after = some r →
        MotorAct.relativeMove (-r) ∈
          (dispense_step p filterA filterB initW setpt false false currW
            sample motorCmdDue checkSample).acts) ∧
    (¬ get_median_weight checkSample 15 < (initW - setpt) + p.stop_offset →
      dispense_step p filterA filterB initW setpt false false currW sample
          motorCmdDue checkSample =
        .continueLoop (filterA * sample + filterB * currW)
          ((if motorCmdDue then update_motor_speed_acts p
              ((filterA * sample + filterB * currW - (initW - setpt)) / setpt)
            else []) ++ [.abruptStop, .relativeMove 10]) ∧
      MotorAct.relativeMove 10 ∈
        (dispense_step p filterA filterB initW setpt false false currW
          sample motorCmdDue checkSample).acts) := by
  have hstep : dispense_step p filterA filterB initW setpt false false currW
      sample motorCmdDue checkSample =
      (if get_median_weight checkSample 15 < (initW - setpt) + p.stop_offset
       then
        StepResult.finished
          (.WeightAchieved (initW - get_median_weight checkSample 15))
          ((if motorCmdDue then update_motor_speed_acts p
              ((filterA * sample + filterB * currW - (initW - setpt)) / setpt)
            else []) ++ [.abruptStop] ++
            (match p.retract_after with
             | some r =>
               [.setVelocity p.motor_speed, .relativeMove (-r), .waitForMove]
             | none => []))
       else
        StepResult.continueLoop (filterA * sample + filterB * currW)
          ((if motorCmdDue then update_motor_speed_acts p
              ((filterA * sample + filterB * currW - (initW - setpt)) / setpt)
            else []) ++ [.abruptStop, .relativeMove 10])) := by
    rw [dispense_step]
    simp only [Bool.false_eq_true, if_false]
    rw [if_pos hcheck]
  by_cases hm : get_median_weight checkSample 15 < (initW - setpt) +
      p.stop_offset
  · rw [if_pos hm] at hstep
    refine ⟨?_, fun _ => ⟨hstep, ?_⟩, fun habs => absurd hm habs⟩
    · rw [hstep]
      simp [StepResult.acts]
    · intro r hr
      rw [hstep, hr]
      simp [StepResult.acts]
  · rw [if_neg hm] at hstep
    refine ⟨?_, fun habs => absurd habs hm, fun _ => ⟨hstep, ?_⟩⟩
    · rw [hstep]
      simp [StepResult.acts]
    · rw [hstep]
      simp [StepResult.acts]

/-- C1 witness: target 90 = 100 − 10, check_offset 1, filtered weight 90
is below 91, the 16 check samples all read 89 < 91 = target + stop_offset,
retract_after set to 2: the iteration ends with WeightAchieved(100 − 89)
after abrupt_stop and the retract move. -/
theorem dispense_check_then_confirm_witness :
    ((1 : ℚ) / 2 * 90 + 1 / 2 * 90 < ((100 : ℚ) - 10) + 1) ∧
    (MotorAct.abruptStop ∈
      (dispense_step ⟨1, 1, 1, some 2⟩ (1 / 2) (1 / 2) 100 10 false false 90
        90 false (fun _ => 89)).acts ∧
    (get_median_weight (fun _ => 89) 15 < ((100 : ℚ) - 10) + 1 →
      dispense_step ⟨1, 1, 1, some 2⟩ (1 / 2) (1 / 2) 100 10 false false 90
          90 false (fun _ => 89) =
        .finished
          (.WeightAchieved (100 - get_median_weight (fun _ => 89) 15))
          ((if false then update_motor_speed_acts ⟨1, 1, 1, some 2⟩
              ((1 / 2 * 90 + 1 / 2 * 90 - ((100 : ℚ) - 10)) / 10)
            else []) ++ [.abruptStop] ++
            (match (⟨1, 1, 1, some 2⟩ : DispenseParameters).retract_after with
             | some r =>
               [.setVelocity (⟨1, 1, 1, some 2⟩ :
                  DispenseParameters).motor_speed,
                .relativeMove (-r), .waitForMove]
             | none => [])) ∧
      ∀ r, (⟨1, 1, 1, some 2⟩ : DispenseParameters).retract_after = some r →
        MotorAct.relativeMove (-r) ∈
          (dispense_step ⟨1, 1, 1, some 2⟩ (1 / 2) (1 / 2) 100 10 false
            false 90 90 false (fun _ => 89)).acts) ∧
    (¬ get_median_weight (fun _ => 89) 15 < ((100 : ℚ) - 10) + 1 →
      dispense_step ⟨1, 1, 1, some 2⟩ (1 / 2) (1 / 2) 100 10 false false 90
          90 false (fun _ => 89) =
        .continueLoop (1 / 2 * 90 + 1 / 2 * 90)
          ((if false then update_motor_speed_acts ⟨1, 1, 1, some 2⟩
              ((1 / 2 * 90 + 1 / 2 * 90 - ((100 : ℚ) - 10)) / 10)
            else []) ++ [.abruptStop, .relativeMove 10]) ∧
      MotorAct.relativeMove 10 ∈
        (dispense_step ⟨1, 1, 1, some 2⟩ (1 / 2) (1 / 2) 100 10 false false
          90 90 false (fun _ => 89)).acts)) :=
  ⟨by norm_num,
    dispense_check_then_confirm ⟨1, 1, 1, some 2⟩ (1 / 2) (1 / 2) 100 10 90
      90 false (fun _ => 89) (by norm_num)⟩

end ControlComponents
